import Mathlib

/-!
Shallow embedding of the animal record service in `src/main.py` (FastAPI + SQLite).

The store is modelled as a `List Animal` in insertion order (SQLite rowid order).
Machine details modelled explicitly:
* `lowerChar` models ASCII lower-casing: this is exactly SQLite's `lower()` and
  agrees with Python's `str.lower()` on the ASCII range (validated names only
  contain ASCII letters and hyphens).
* `pyNameMatch` models Python's `re.match(r"^[A-Za-z\-]+$", s)`, including the
  CPython semantics of `$`, which also matches just before a single trailing
  newline at the end of the string.
* `likeMatch` models SQL `LIKE` pattern matching (no ESCAPE clause): `%` matches
  any sequence of characters, `_` matches exactly one character, every other
  character matches itself.  The service builds the pattern by f-string
  interpolation, so wildcard characters in the query act as wildcards.
* `matchSumF`/`matchTotal` model `difflib.SequenceMatcher` (with `isjunk=None`
  and no autojunk, which only triggers for strings of length at least 200):
  the total size of the matching blocks found by the recursive
  longest-matching-block algorithm.  `smRatioGE06` models `ratio() >= 0.6`
  exactly over the rationals: `2*M/T >= 3/5` iff `10*M >= 3*T`.
* `datetime.fromisoformat` is modelled by an arbitrary parse function
  `String → Option Int` (`none` models the unhandled `ValueError`); theorems
  quantify over it.  `created_at` timestamps are modelled as `Int`.
-/

/-- Error taxonomy of the service: the five business exception classes of
`src/main.py`, plus the unhandled date-parse failure of `list_animals`. -/
inductive ApiError where
  | animalNotFound
  | invalidNameFormat
  | duplicateName
  | invalidSortParameter
  | searchNotFound
  | dateParseError
deriving DecidableEq

/-- A row of the `animals` table: integer primary key, name, creation timestamp. -/
structure Animal where
  id : Nat
  name : String
  created_at : Int
deriving DecidableEq

/-- ASCII lower-casing of a single character (SQLite `lower()`; agrees with
Python `str.lower()` on ASCII). -/
def lowerChar (c : Char) : Char :=
  if 65 ≤ c.toNat ∧ c.toNat ≤ 90 then Char.ofNat (c.toNat + 32) else c

/-- ASCII lower-casing of a character list. -/
def lowerL (s : List Char) : List Char := s.map lowerChar

/-- Case-insensitive equality of two names, as computed by
`func.lower(Animal.name) == name.lower()`. -/
def lowEq (x y : String) : Bool := lowerL x.data == lowerL y.data

/-- A character matched by the character class `[A-Za-z\-]`. -/
def isNameChar (c : Char) : Bool :=
  (65 ≤ c.toNat && c.toNat ≤ 90) || (97 ≤ c.toNat && c.toNat ≤ 122) || c == '-'

/-- Python `re.match(r"^[A-Za-z\-]+$", s)` as a Boolean: one or more characters
of the class must span the whole string, where `$` matches at the end of the
string or just before a newline that ends the string (CPython semantics). -/
def pyNameMatch (s : String) : Bool :=
  let cs := s.data
  let core := match cs.getLast? with
    | some c => if c = '\n' then cs.dropLast else cs
    | none => cs
  !core.isEmpty && core.all isNameChar

/-- `validate_name` from `src/main.py`: length at least 2, at most 30, last
character not a space, and the name must match the regex; on success the
name is returned unmodified. -/
def validate_name (name : String) : Except ApiError String :=
  if name.length < 2 then .error .invalidNameFormat
  else if name.length > 30 then .error .invalidNameFormat
  else if name.data.getLast? = some ' ' then .error .invalidNameFormat
  else if !pyNameMatch name then .error .invalidNameFormat
  else .ok name

/-- SQL `LIKE` matching (SQLite, no ESCAPE): `%` matches any sequence, `_`
matches one character, anything else matches itself. -/
def likeMatch : List Char → List Char → Bool
  | [], s => s.isEmpty
  | c :: ps, s =>
    if c = '%' then (List.range (s.length + 1)).any (fun n => likeMatch ps (s.drop n))
    else if c = '_' then
      match s with
      | [] => false
      | _ :: s2 => likeMatch ps s2
    else
      match s with
      | [] => false
      | d :: s2 => c == d && likeMatch ps s2

/-- The pattern `f"%{name_lower}%"` built by `search_animals`. -/
def likePat (q : String) : List Char := '%' :: (lowerL q.data ++ ['%'])

/-- Boolean list-prefix test (used to state plain substring containment). -/
def isPrefixL : List Char → List Char → Bool
  | [], _ => true
  | _ :: _, [] => false
  | c :: cs, d :: ds => c == d && isPrefixL cs ds

/-- Case-insensitive substring containment, the relation the specification
describes for the first search stage: the lower-cased query occurs
contiguously inside the lower-cased name. -/
def isSubstrCI (q name : String) : Bool :=
  let qd := lowerL q.data
  let nd := lowerL name.data
  (List.range (nd.length + 1)).any (fun n => isPrefixL qd (nd.drop n))

/-- Length of the common suffix of `a[..i]` and `b[..j]` that stays inside the
window floors `alo`, `blo`: the per-cell value of the `j2len` dynamic program
of `SequenceMatcher.find_longest_match`. -/
def csl (a b : List Char) (alo blo : Nat) : Nat → Nat → Nat
  | 0, j =>
    if alo ≤ 0 ∧ blo ≤ j ∧ (a[0]?).isSome ∧ a[0]? = b[j]? then 1 else 0
  | i+1, 0 =>
    if alo ≤ i+1 ∧ blo ≤ 0 ∧ (a[i+1]?).isSome ∧ a[i+1]? = b[0]? then 1 else 0
  | i+1, j+1 =>
    if alo ≤ i+1 ∧ blo ≤ j+1 ∧ (a[i+1]?).isSome ∧ a[i+1]? = b[j+1]? then
      1 + csl a b alo blo i j
    else 0

/-- `SequenceMatcher.find_longest_match` on the window `[alo,ahi) × [blo,bhi)`
with no junk: the longest common block, the first one in ascending `(i, j)`
end-position order; returns `(start in a, start in b, size)`, or
`(alo, blo, 0)` if the window has no common block. -/
def findLongestMatch (a b : List Char) (alo ahi blo bhi : Nat) : Nat × Nat × Nat :=
  (List.range' alo (ahi - alo)).foldl
    (fun best i =>
      (List.range' blo (bhi - blo)).foldl
        (fun best2 j =>
          let k := csl a b alo blo i j
          if best2.2.2 < k then (i + 1 - k, j + 1 - k, k) else best2)
        best)
    (alo, blo, 0)

/-- Total size of the matching blocks of `SequenceMatcher.get_matching_blocks`
on a window, fuelled: the longest block is found, then the algorithm recurses
on the windows to its left and to its right.  The fuel only bounds the
recursion depth; `matchSumF_fuel_congr` below shows any fuel at least the
window width gives the same value. -/
def matchSumF (a b : List Char) : Nat → Nat → Nat → Nat → Nat → Nat
  | 0, _, _, _, _ => 0
  | fuel+1, alo, ahi, blo, bhi =>
    let r := findLongestMatch a b alo ahi blo bhi
    if r.2.2 = 0 then 0
    else matchSumF a b fuel alo r.1 blo r.2.1 +
         r.2.2 +
         matchSumF a b fuel (r.1 + r.2.2) ahi (r.2.1 + r.2.2) bhi

/-- Total size `M` of the matching blocks of `SequenceMatcher(None, a, b)`. -/
def matchTotal (a b : List Char) : Nat := matchSumF a b a.length 0 a.length 0 b.length

/-- `SequenceMatcher(None, a, b).ratio() >= 0.6`, decided exactly over the
rationals: `2*M/T >= 3/5` iff `10*M >= 3*T` (with `T = 0` giving ratio `1.0`,
consistently `0 >= 0`). -/
def smRatioGE06 (a b : List Char) : Bool :=
  decide (3 * (a.length + b.length) ≤ 10 * matchTotal a b)

/-- First stage of `search_animals`: rows whose lower-cased name matches the
`LIKE` pattern `f"%{name_lower}%"`. -/
def searchStage1 (q : String) (db : List Animal) : List Animal :=
  db.filter (fun a => likeMatch (likePat q) (lowerL a.name.data))

/-- Fallback stage of `search_animals`: rows whose lower-cased name scores a
similarity ratio of at least 0.6 against the lower-cased query. -/
def searchFallback (q : String) (db : List Animal) : List Animal :=
  db.filter (fun a => smRatioGE06 (lowerL q.data) (lowerL a.name.data))

/-- `search_animals` from `src/main.py`: `LIKE` filter, then the similarity
fallback when the first stage found nothing, then `SearchNotFound` when both
stages found nothing. -/
def search_animals (q : String) (db : List Animal) : Except ApiError (List Animal) :=
  let filtered := searchStage1 q db
  let filtered2 := if filtered.isEmpty then searchFallback q db else filtered
  if filtered2.isEmpty then .error .searchNotFound else .ok filtered2

/-- Largest id present in the store (0 when empty). -/
def maxId (db : List Animal) : Nat := db.foldr (fun a m => max a.id m) 0

/-- The id SQLite assigns to a freshly inserted row: largest rowid plus one. -/
def nextId (db : List Animal) : Nat := maxId db + 1

/-- `add_animal` (POST /animals): validate, reject a case-insensitive
duplicate, then insert with a fresh id and the creation timestamp `now`. -/
def add_animal (name : String) (now : Int) (db : List Animal) :
    Except ApiError (Animal × List Animal) :=
  match validate_name name with
  | .error e => .error e
  | .ok name2 =>
    if db.any (fun a => lowEq a.name name2) then .error .duplicateName
    else
      let animal : Animal := ⟨nextId db, name2, now⟩
      .ok (animal, db ++ [animal])

/-- `get_animal` (GET /animals/\x7bid\x7d). -/
def get_animal (id : Nat) (db : List Animal) : Except ApiError Animal :=
  match db.find? (fun a => a.id == id) with
  | none => .error .animalNotFound
  | some a => .ok a

/-- Replace the name of the first row with the given id (the ORM mutates the
object returned by `.first()`). -/
def setFirst (db : List Animal) (id : Nat) (name : String) : List Animal :=
  match db with
  | [] => []
  | a :: rest =>
    if a.id == id then { a with name := name } :: rest
    else a :: setFirst rest id name

/-- `update_animal` (PUT /animals/\x7bid\x7d): validate, 404 when the id is
absent, reject a case-insensitive duplicate among the other rows, then
persist the new name. -/
def update_animal (id : Nat) (name : String) (db : List Animal) :
    Except ApiError (Animal × List Animal) :=
  match validate_name name with
  | .error e => .error e
  | .ok _ =>
    match db.find? (fun a => a.id == id) with
    | none => .error .animalNotFound
    | some animal =>
      if db.any (fun a => lowEq a.name name && a.id != id) then .error .duplicateName
      else .ok ({ animal with name := name }, setFirst db id name)

/-- Remove the first row with the given id. -/
def removeFirst : List Animal → Nat → List Animal
  | [], _ => []
  | a :: rest, id => if a.id == id then rest else a :: removeFirst rest id

/-- `delete_animal` (DELETE /animals/\x7bid\x7d): 404 when the id is absent,
otherwise remove the row and return the confirmation message. -/
def delete_animal (id : Nat) (db : List Animal) :
    Except ApiError (String × List Animal) :=
  match db.find? (fun a => a.id == id) with
  | none => .error .animalNotFound
  | some _ => .ok ("Usunięto", removeFirst db id)

/-- The `created_at >= from_date` filter of `list_animals`; an empty or absent
parameter is falsy in Python and applies no filter, a malformed date raises. -/
def applyFromFilter (parse : String → Option Int) (fromD : Option String)
    (db : List Animal) : Except ApiError (List Animal) :=
  match fromD with
  | none => .ok db
  | some f =>
    if f = "" then .ok db
    else match parse f with
      | none => .error .dateParseError
      | some t => .ok (db.filter (fun a => decide (t ≤ a.created_at)))

/-- The `created_at <= to_date` filter of `list_animals`. -/
def applyToFilter (parse : String → Option Int) (toD : Option String)
    (db : List Animal) : Except ApiError (List Animal) :=
  match toD with
  | none => .ok db
  | some f =>
    if f = "" then .ok db
    else match parse f with
      | none => .error .dateParseError
      | some t => .ok (db.filter (fun a => decide (a.created_at ≤ t)))

/-- Both date filters of `list_animals`, `from_date` first, as in the source. -/
def dateFilter (parse : String → Option Int) (fromD toD : Option String)
    (db : List Animal) : Except ApiError (List Animal) :=
  match applyFromFilter parse fromD db with
  | .error e => .error e
  | .ok q => applyToFilter parse toD q

/-- Lexicographic (byte) order on character lists: SQLite `ORDER BY` on TEXT
with the default BINARY collation. -/
def strLeB : List Char → List Char → Bool
  | [], _ => true
  | _ :: _, [] => false
  | a :: as, b :: bs =>
    if a < b then true
    else if b < a then false
    else strLeB as bs

/-- Ascending name comparison (`ORDER BY name ASC`). -/
def nameLe (x y : Animal) : Bool := strLeB x.name.data y.name.data

/-- Descending name comparison (`ORDER BY name DESC`). -/
def nameGe (x y : Animal) : Bool := strLeB y.name.data x.name.data

/-- `list_animals` (GET /animals): date filters, then the sort parameter; an
empty sort string is falsy and skips the sort block, `name` and `-name` order
by name, anything else raises `InvalidSortParameter`. -/
def list_animals (parse : String → Option Int) (sort fromD toD : Option String)
    (db : List Animal) : Except ApiError (List Animal) :=
  match dateFilter parse fromD toD db with
  | .error e => .error e
  | .ok q =>
    match sort with
    | none => .ok q
    | some s =>
      if s = "" then .ok q
      else if s = "name" then .ok (q.mergeSort nameLe)
      else if s = "-name" then .ok (q.mergeSort nameGe)
      else .error .invalidSortParameter

/-- One mutating request against the store. -/
inductive Op where
  | create (name : String) (now : Int)
  | update (id : Nat) (name : String)
  | delete (id : Nat)

/-- The store after one request: a failed request leaves it unchanged
(each handler raises before any write). -/
def applyOp (db : List Animal) : Op → List Animal
  | .create name now =>
    match add_animal name now db with
    | .ok (_, db2) => db2
    | .error _ => db
  | .update id name =>
    match update_animal id name db with
    | .ok (_, db2) => db2
    | .error _ => db
  | .delete id =>
    match delete_animal id db with
    | .ok (_, db2) => db2
    | .error _ => db

/-- The store after a sequence of requests. -/
def applyOps (db : List Animal) : List Op → List Animal
  | [] => db
  | op :: ops => applyOps (applyOp db op) ops

/-- The lower-cased names of the store, in order. -/
def lowNames (db : List Animal) : List (List Char) := db.map (fun a => lowerL a.name.data)

/-- No two rows share a case-insensitive name. -/
def NamesOk (db : List Animal) : Prop := (lowNames db).Nodup

/-- No two rows share an id (the `id` column is the primary key). -/
def IdsOk (db : List Animal) : Prop := (db.map (fun a => a.id)).Nodup

/-- Treat an empty query-string value as absent (Python truthiness). -/
def normParam : Option String → Option String
  | none => none
  | some s => if s = "" then none else some s

/-- A one-row store used by the concrete counterexamples and witnesses. -/
def lionDb : List Animal := [⟨1, "Lion", 0⟩]

instance {ε α : Type} [DecidableEq ε] [DecidableEq α] : DecidableEq (Except ε α) := fun a b =>
  match a, b with
  | .ok x, .ok y => decidable_of_iff (x = y) (by simp)
  | .error e, .error f => decidable_of_iff (e = f) (by simp)
  | .ok _, .error _ => isFalse nofun
  | .error _, .ok _ => isFalse nofun

/-! ### Helper lemmas -/

theorem validate_name_ok {name m : String} (h : validate_name name = .ok m) : m = name := by
  unfold validate_name at h
  split_ifs at h
  simp_all

theorem findId_none_iff {db : List Animal} {id : Nat} :
    db.find? (fun a => a.id == id) = none ↔ ¬ ∃ a ∈ db, a.id = id := by
  rw [List.find?_eq_none]
  simp

theorem findId_some_id {db : List Animal} {id : Nat} {a : Animal}
    (h : db.find? (fun a => a.id == id) = some a) : a.id = id := by
  have := List.find?_some h
  simpa using this

theorem removeFirst_mem_ne {db : List Animal} {id : Nat} (hids : IdsOk db) :
    ∀ a ∈ removeFirst db id, a.id ≠ id := by
  induction db with
  | nil => simp [removeFirst]
  | cons b rest ih =>
    have hb : b.id ∉ rest.map (fun a => a.id) ∧ IdsOk rest := by
      simpa [IdsOk] using hids
    intro a ha
    unfold removeFirst at ha
    split at ha
    · rename_i hbeq
      have hbid : b.id = id := by simpa using hbeq
      intro haid
      exact hb.1 (by simpa [haid, hbid] using List.mem_map_of_mem (fun a => a.id) ha)
    · rename_i hbeq
      rcases List.mem_cons.1 ha with rfl | ha2
      · simpa using hbeq
      · exact ih hb.2 a ha2

/-! ### C4: name validator -/

/-- C4 (code bug): the input `"ab\n"` meets every other condition of the claim
(length in range, last character not a space) and contains a character outside
`[A-Za-z-]`, so the claim requires `InvalidNameFormat`; the code accepts it
unchanged, because CPython's `$` also matches just before a trailing newline. -/
theorem C4_code_behavior :
    validate_name "ab\n" = .ok "ab\n" ∧
    ('\n' ∈ "ab\n".data ∧ isNameChar '\n' = false) ∧
    2 ≤ "ab\n".length ∧ "ab\n".length ≤ 30 ∧ "ab\n".data.getLast? ≠ some ' ' := by
  decide

/-! ### C6: AnimalNotFound behaviour of get, update, delete -/

/-- C6: get, update (on a valid name) and delete fail with `AnimalNotFound`
exactly when no row has the requested id; a successful delete returns the
confirmation message `"Usunięto"` (a string, not the record) and removes the
row, so a following get of the same id fails with `AnimalNotFound`. -/
theorem C6_notFound (id : Nat) (name : String) (db : List Animal)
    (hv : validate_name name = .ok name) (hids : IdsOk db) :
    (get_animal id db = .error .animalNotFound ↔ ¬ ∃ a ∈ db, a.id = id) ∧
    (update_animal id name db = .error .animalNotFound ↔ ¬ ∃ a ∈ db, a.id = id) ∧
    (delete_animal id db = .error .animalNotFound ↔ ¬ ∃ a ∈ db, a.id = id) ∧
    (∀ msg db2, delete_animal id db = .ok (msg, db2) →
      msg = "Usunięto" ∧ get_animal id db2 = .error .animalNotFound) := by
  refine ⟨?_, ?_, ?_, ?_⟩
  · unfold get_animal
    cases hf : db.find? (fun a => a.id == id) with
    | none => exact iff_of_true rfl (findId_none_iff.1 hf)
    | some a =>
      exact iff_of_false (by simp)
        (fun hno => hno ⟨a, List.mem_of_find?_eq_some hf, findId_some_id hf⟩)
  · unfold update_animal
    rw [hv]
    dsimp only
    split
    · rename_i hf
      exact iff_of_true rfl (findId_none_iff.1 hf)
    · rename_i a hf
      refine iff_of_false ?_
        (fun hno => hno ⟨a, List.mem_of_find?_eq_some hf, findId_some_id hf⟩)
      split
      · simp
      · simp
  · unfold delete_animal
    cases hf : db.find? (fun a => a.id == id) with
    | none => exact iff_of_true rfl (findId_none_iff.1 hf)
    | some a =>
      exact iff_of_false (by simp)
        (fun hno => hno ⟨a, List.mem_of_find?_eq_some hf, findId_some_id hf⟩)
  · intro msg db2 hdel
    unfold delete_animal at hdel
    split at hdel
    · exact absurd hdel (by simp)
    · injection hdel with hpair
      rw [Prod.mk.injEq] at hpair
      obtain ⟨rfl, rfl⟩ := hpair
      refine ⟨rfl, ?_⟩
      unfold get_animal
      have hnone : (removeFirst db id).find? (fun a => a.id == id) = none := by
        rw [List.find?_eq_none]
        intro x hx
        simpa using removeFirst_mem_ne hids x hx
      rw [hnone]

/-- Concrete instance of `C6_notFound` on the one-row store. -/
theorem C6_notFound_witness :
    (get_animal 1 lionDb = .error .animalNotFound ↔ ¬ ∃ a ∈ lionDb, a.id = 1) ∧
    (update_animal 1 "Cat" lionDb = .error .animalNotFound ↔ ¬ ∃ a ∈ lionDb, a.id = 1) ∧
    (delete_animal 1 lionDb = .error .animalNotFound ↔ ¬ ∃ a ∈ lionDb, a.id = 1) ∧
    (∀ msg db2, delete_animal 1 lionDb = .ok (msg, db2) →
      msg = "Usunięto" ∧ get_animal 1 db2 = .error .animalNotFound) :=
  C6_notFound 1 "Cat" lionDb (by decide) (by unfold IdsOk; decide)

/-! ### C5: DuplicateName behaviour of create and update -/

/-- C5: on a valid candidate name, create fails with `DuplicateName` exactly
when some row's name equals it case-insensitively; update of an existing id
fails with `DuplicateName` exactly when a row with a different id has a
case-insensitively equal name; consequently a second create of a case variant
fails, and an update of a row to its own current name succeeds. -/
theorem C5_duplicate (name : String) (now : Int) (id : Nat) (db : List Animal)
    (hv : validate_name name = .ok name) :
    (add_animal name now db = .error .duplicateName ↔
        ∃ a ∈ db, lowerL a.name.data = lowerL name.data) ∧
    ((∃ a ∈ db, a.id = id) →
      (update_animal id name db = .error .duplicateName ↔
        ∃ a ∈ db, lowerL a.name.data = lowerL name.data ∧ a.id ≠ id)) ∧
    (∀ r db2, add_animal name now db = .ok (r, db2) →
      ∀ name2 now2, lowerL name2.data = lowerL name.data →
        validate_name name2 = .ok name2 →
        add_animal name2 now2 db2 = .error .duplicateName) ∧
    (NamesOk db → ∀ a ∈ db, a.id = id → a.name = name →
      ∃ p, update_animal id name db = .ok p) := by
  refine ⟨?_, ?_, ?_, ?_⟩
  · unfold add_animal
    rw [hv]
    dsimp only
    split
    · rename_i hany
      refine iff_of_true rfl ?_
      obtain ⟨a, ha, he⟩ := List.any_eq_true.1 hany
      exact ⟨a, ha, by simpa [lowEq] using he⟩
    · rename_i hany
      refine iff_of_false (by simp) ?_
      rintro ⟨a, ha, he⟩
      exact hany (List.any_eq_true.2 ⟨a, ha, by simpa [lowEq] using he⟩)
  · intro hex
    unfold update_animal
    rw [hv]
    dsimp only
    split
    · rename_i hf
      exact absurd hex (findId_none_iff.1 hf)
    · rename_i b hf
      split
      · rename_i hany
        refine iff_of_true rfl ?_
        obtain ⟨x, hx, he⟩ := List.any_eq_true.1 hany
        rw [Bool.and_eq_true] at he
        exact ⟨x, hx, by simpa [lowEq] using he.1, by simpa using he.2⟩
      · rename_i hany
        refine iff_of_false (by simp) ?_
        rintro ⟨x, hx, h1, h2⟩
        exact hany (List.any_eq_true.2 ⟨x, hx, by simp [lowEq, h1, h2]⟩)
  · intro r db2 hadd name2 now2 hlow hv2
    unfold add_animal at hadd
    rw [hv] at hadd
    dsimp only at hadd
    split at hadd
    · exact absurd hadd (by simp)
    · injection hadd with hpair
      rw [Prod.mk.injEq] at hpair
      obtain ⟨-, rfl⟩ := hpair
      have hany2 : (db ++ [(⟨nextId db, name, now⟩ : Animal)]).any
          (fun a => lowEq a.name name2) = true := by
        refine List.any_eq_true.2 ⟨⟨nextId db, name, now⟩, by simp, ?_⟩
        simp [lowEq, hlow]
      unfold add_animal
      rw [hv2]
      dsimp only
      simp [hany2]
  · intro hnames a ha haid hname
    unfold update_animal
    rw [hv]
    dsimp only
    split
    · rename_i hf
      exact absurd ⟨a, ha, haid⟩ (findId_none_iff.1 hf)
    · rename_i b hf
      have hany : db.any (fun x => lowEq x.name name && x.id != id) = false := by
        rw [Bool.eq_false_iff]
        intro hcon
        obtain ⟨x, hx, he⟩ := List.any_eq_true.1 hcon
        rw [Bool.and_eq_true] at he
        have h1 : lowerL x.name.data = lowerL name.data := by simpa [lowEq] using he.1
        have h2 : x.id ≠ id := by simpa using he.2
        unfold NamesOk lowNames at hnames
        have hxa : x = a := by
          refine List.inj_on_of_nodup_map hnames hx ha ?_
          rw [h1, hname]
        exact h2 (hxa ▸ haid)
      simp only [hany]
      exact ⟨_, rfl⟩

/-- Concrete instance of `C5_duplicate` on the one-row store. -/
theorem C5_duplicate_witness :
    (add_animal "Lion" 7 lionDb = .error .duplicateName ↔
        ∃ a ∈ lionDb, lowerL a.name.data = lowerL "Lion".data) ∧
    ((∃ a ∈ lionDb, a.id = 1) →
      (update_animal 1 "Lion" lionDb = .error .duplicateName ↔
        ∃ a ∈ lionDb, lowerL a.name.data = lowerL "Lion".data ∧ a.id ≠ 1)) ∧
    (∀ r db2, add_animal "Lion" 7 lionDb = .ok (r, db2) →
      ∀ name2 now2, lowerL name2.data = lowerL "Lion".data →
        validate_name name2 = .ok name2 →
        add_animal name2 now2 db2 = .error .duplicateName) ∧
    (NamesOk lionDb → ∀ a ∈ lionDb, a.id = 1 → a.name = "Lion" →
      ∃ p, update_animal 1 "Lion" lionDb = .ok p) :=
  C5_duplicate "Lion" 7 1 lionDb (by decide)

/-! ### C9: update only changes the name of the targeted row -/

theorem find_setFirst {db : List Animal} {id : Nat} {a0 : Animal} (name : String)
    (h : db.find? (fun a => a.id == id) = some a0) :
    ∃ pre post, db = pre ++ a0 :: post ∧
      setFirst db id name = pre ++ { a0 with name := name } :: post := by
  induction db with
  | nil => simp at h
  | cons b rest ih =>
    by_cases hb : b.id = id
    · rw [List.find?_cons_of_pos _ (by simpa using hb)] at h
      injection h with hba
      subst hba
      exact ⟨[], rest, by simp, by unfold setFirst; simp [hb]⟩
    · rw [List.find?_cons_of_neg _ (by simpa using hb)] at h
      obtain ⟨pre, post, h1, h2⟩ := ih h
      exact ⟨b :: pre, post, by simp [h1], by unfold setFirst; simp [hb, h2]⟩

/-- C9: a successful update of an id splits the store as `pre ++ row :: post`;
the result keeps the row's id and `created_at`, replaces only its name, and
leaves every other row (`pre` and `post`) untouched, in place. -/
theorem C9_frame (id : Nat) (name : String) (db : List Animal) (r : Animal)
    (db2 : List Animal) (h : update_animal id name db = .ok (r, db2)) :
    ∃ pre a post,
      db = pre ++ a :: post ∧ a.id = id ∧
      r = ⟨a.id, name, a.created_at⟩ ∧
      db2 = pre ++ r :: post := by
  unfold update_animal at h
  cases hv : validate_name name with
  | error e => rw [hv] at h; exact absurd h (by simp)
  | ok m =>
    rw [hv] at h
    dsimp only at h
    split at h
    · exact absurd h (by simp)
    · rename_i a0 hf
      split at h
      · exact absurd h (by simp)
      · injection h with hpair
        rw [Prod.mk.injEq] at hpair
        obtain ⟨hr, hdb2⟩ := hpair
        obtain ⟨pre, post, h1, h2⟩ := find_setFirst name hf
        refine ⟨pre, a0, post, h1, findId_some_id hf, hr.symm, ?_⟩
        rw [← hdb2, h2, ← hr]

/-- Concrete instance of `C9_frame`: updating the one-row store. -/
theorem C9_frame_witness :
    ∃ pre a post,
      lionDb = pre ++ a :: post ∧ a.id = 1 ∧
      (⟨1, "Cat", 0⟩ : Animal) = ⟨a.id, "Cat", a.created_at⟩ ∧
      [(⟨1, "Cat", 0⟩ : Animal)] = pre ++ (⟨1, "Cat", 0⟩ : Animal) :: post :=
  C9_frame 1 "Cat" lionDb ⟨1, "Cat", 0⟩ [⟨1, "Cat", 0⟩] (by decide)

/-! ### C1: the case-insensitive name invariant is preserved -/

theorem maxId_cons (b : Animal) (rest : List Animal) :
    maxId (b :: rest) = max b.id (maxId rest) := rfl

theorem mem_le_maxId {db : List Animal} : ∀ a ∈ db, a.id ≤ maxId db := by
  induction db with
  | nil => simp
  | cons b rest ih =>
    intro a ha
    rw [maxId_cons]
    rcases List.mem_cons.1 ha with rfl | ha2
    · exact le_max_left _ _
    · exact le_trans (ih a ha2) (le_max_right _ _)

theorem nextId_fresh {db : List Animal} : ∀ a ∈ db, a.id ≠ nextId db := by
  intro a ha
  have := mem_le_maxId a ha
  unfold nextId
  omega

theorem lowNames_cons (b : Animal) (rest : List Animal) :
    lowNames (b :: rest) = lowerL b.name.data :: lowNames rest := rfl

theorem setFirst_map_id (db : List Animal) (id : Nat) (name : String) :
    (setFirst db id name).map (fun a => a.id) = db.map (fun a => a.id) := by
  induction db with
  | nil => rfl
  | cons b rest ih =>
    unfold setFirst
    split
    · simp
    · simp [ih]

theorem mem_lowNames_setFirst {db : List Animal} {id : Nat} {name : String}
    {x : List Char} (hx : x ∈ lowNames (setFirst db id name)) :
    x ∈ lowNames db ∨ x = lowerL name.data := by
  induction db with
  | nil => simp [setFirst, lowNames] at hx
  | cons b rest ih =>
    unfold setFirst at hx
    split at hx
    · rw [lowNames_cons] at hx
      rcases List.mem_cons.1 hx with heq | hmem
      · exact Or.inr heq
      · exact Or.inl (by rw [lowNames_cons]; exact List.mem_cons_of_mem _ hmem)
    · rw [lowNames_cons] at hx
      rcases List.mem_cons.1 hx with heq | hmem
      · exact Or.inl (by rw [lowNames_cons, heq]; exact List.mem_cons_self _ _)
      · rcases ih hmem with hmem2 | heq2
        · exact Or.inl (by rw [lowNames_cons]; exact List.mem_cons_of_mem _ hmem2)
        · exact Or.inr heq2

theorem setFirst_namesOk {db : List Animal} {id : Nat} {name : String}
    (hids : IdsOk db) (hnames : NamesOk db)
    (hdup : ∀ a ∈ db, a.id ≠ id → lowerL a.name.data ≠ lowerL name.data) :
    NamesOk (setFirst db id name) := by
  induction db with
  | nil => exact hnames
  | cons b rest ih =>
    have hids2 : b.id ∉ rest.map (fun a => a.id) ∧ IdsOk rest := by
      simpa [IdsOk] using hids
    have hnames2 : lowerL b.name.data ∉ lowNames rest ∧ NamesOk rest := by
      simpa [NamesOk, lowNames_cons] using hnames
    unfold setFirst
    split
    · rename_i hbeq
      have hbid : b.id = id := by simpa using hbeq
      unfold NamesOk
      rw [lowNames_cons, List.nodup_cons]
      refine ⟨?_, hnames2.2⟩
      intro hmem
      obtain ⟨r, hr, hre⟩ := List.mem_map.1 hmem
      have hrid : r.id ≠ id := by
        intro hri
        exact hids2.1 (by
          rw [hbid]
          exact hri ▸ List.mem_map_of_mem (fun a => a.id) hr)
      exact hdup r (List.mem_cons_of_mem _ hr) hrid hre
    · rename_i hbeq
      have hbid : b.id ≠ id := by simpa using hbeq
      unfold NamesOk
      rw [lowNames_cons, List.nodup_cons]
      refine ⟨?_, ih hids2.2 hnames2.2
        (fun a ha hne => hdup a (List.mem_cons_of_mem _ ha) hne)⟩
      intro hmem
      rcases mem_lowNames_setFirst hmem with hmem2 | heq
      · exact hnames2.1 hmem2
      · exact hdup b (List.mem_cons_self _ _) hbid heq

theorem removeFirst_sublist (db : List Animal) (id : Nat) :
    (removeFirst db id).Sublist db := by
  induction db with
  | nil => simp [removeFirst]
  | cons b rest ih =>
    unfold removeFirst
    split
    · exact List.sublist_cons_self _ _
    · exact ih.cons₂ _


theorem applyOp_preserves {db : List Animal} (op : Op)
    (h : IdsOk db ∧ NamesOk db) : IdsOk (applyOp db op) ∧ NamesOk (applyOp db op) := by
  obtain ⟨hids, hnames⟩ := h
  cases op with
  | create name now =>
    unfold applyOp
    dsimp only
    cases hres : add_animal name now db with
    | error e => exact ⟨hids, hnames⟩
    | ok p =>
      obtain ⟨r, db2⟩ := p
      dsimp only
      unfold add_animal at hres
      cases hv : validate_name name with
      | error e => rw [hv] at hres; exact absurd hres (by simp)
      | ok name2 =>
        rw [hv] at hres
        dsimp only at hres
        split at hres
        · exact absurd hres (by simp)
        · rename_i hany
          injection hres with hpair
          rw [Prod.mk.injEq] at hpair
          obtain ⟨-, rfl⟩ := hpair
          constructor
          · unfold IdsOk
            rw [List.map_append, List.nodup_append]
            refine ⟨hids, by simp, ?_⟩
            simp only [List.map_cons, List.map_nil, List.disjoint_singleton]
            intro hmem
            obtain ⟨x, hx, hxid⟩ := List.mem_map.1 hmem
            exact nextId_fresh x hx hxid
          · unfold NamesOk lowNames
            rw [List.map_append, List.nodup_append]
            refine ⟨hnames, by simp, ?_⟩
            simp only [List.map_cons, List.map_nil, List.disjoint_singleton]
            intro hmem
            obtain ⟨x, hx, hxlow⟩ := List.mem_map.1 hmem
            exact hany (List.any_eq_true.2 ⟨x, hx, by simp [lowEq, hxlow]⟩)
  | update id name =>
    unfold applyOp
    dsimp only
    cases hres : update_animal id name db with
    | error e => exact ⟨hids, hnames⟩
    | ok p =>
      obtain ⟨r, db2⟩ := p
      dsimp only
      unfold update_animal at hres
      cases hv : validate_name name with
      | error e => rw [hv] at hres; exact absurd hres (by simp)
      | ok name2 =>
        rw [hv] at hres
        dsimp only at hres
        split at hres
        · exact absurd hres (by simp)
        · rename_i a0 hf
          split at hres
          · exact absurd hres (by simp)
          · rename_i hany
            injection hres with hpair
            rw [Prod.mk.injEq] at hpair
            obtain ⟨-, rfl⟩ := hpair
            have hdup : ∀ a ∈ db, a.id ≠ id → lowerL a.name.data ≠ lowerL name.data := by
              intro a ha hne hlow
              exact hany (List.any_eq_true.2 ⟨a, ha, by simp [lowEq, hlow, hne]⟩)
            refine ⟨?_, setFirst_namesOk hids hnames hdup⟩
            unfold IdsOk at hids ⊢
            rw [setFirst_map_id]
            exact hids
  | delete id =>
    unfold applyOp
    dsimp only
    cases hres : delete_animal id db with
    | error e => exact ⟨hids, hnames⟩
    | ok p =>
      obtain ⟨msg, db2⟩ := p
      dsimp only
      unfold delete_animal at hres
      split at hres
      · exact absurd hres (by simp)
      · injection hres with hpair
        rw [Prod.mk.injEq] at hpair
        obtain ⟨-, rfl⟩ := hpair
        have hsub := removeFirst_sublist db id
        constructor
        · unfold IdsOk at hids ⊢
          exact (hsub.map (fun a => a.id)).nodup hids
        · unfold NamesOk lowNames at hnames ⊢
          exact (hsub.map (fun a => lowerL a.name.data)).nodup hnames

theorem applyOps_preserves (ops : List Op) (db : List Animal)
    (h : IdsOk db ∧ NamesOk db) : IdsOk (applyOps db ops) ∧ NamesOk (applyOps db ops) := by
  induction ops generalizing db with
  | nil => exact h
  | cons op ops ih => exact ih _ (applyOp_preserves op h)

/-- C1: starting from a store with unique ids (the primary-key property every
reachable store has) and no case-insensitive duplicate name, any sequence of
create, update and delete requests leaves the store free of case-insensitive
duplicate names. -/
theorem C1_invariant (ops : List Op) (db : List Animal)
    (hids : IdsOk db) (hnames : NamesOk db) : NamesOk (applyOps db ops) :=
  (applyOps_preserves ops db ⟨hids, hnames⟩).2

/-- Concrete instance of `C1_invariant`: three requests from the empty store. -/
theorem C1_invariant_witness :
    NamesOk (applyOps [] [Op.create "Lion" 0, Op.create "Dog" 0, Op.update 1 "Cat"]) :=
  C1_invariant [Op.create "Lion" 0, Op.create "Dog" 0, Op.update 1 "Cat"] []
    (by unfold IdsOk; decide) (by unfold NamesOk lowNames; decide)

/-! ### C8 and C10: date filtering and empty query parameters -/

theorem applyFrom_some {parse : String → Option Int} {f : String} {tf : Int}
    (db : List Animal) (hf : f ≠ "") (hpf : parse f = some tf) :
    applyFromFilter parse (some f) db
      = .ok (db.filter (fun a => decide (tf ≤ a.created_at))) := by
  simp only [applyFromFilter]
  rw [if_neg hf, hpf]

theorem applyTo_some {parse : String → Option Int} {t : String} {tt : Int}
    (db : List Animal) (ht : t ≠ "") (hpt : parse t = some tt) :
    applyToFilter parse (some t) db
      = .ok (db.filter (fun a => decide (a.created_at ≤ tt))) := by
  simp only [applyToFilter]
  rw [if_neg ht, hpt]

/-- C8: with parseable non-empty bounds, listing returns exactly the rows whose
`created_at` lies between the parsed bounds, both ends inclusive; a single
bound filters on that side only, and omitting both returns every row. -/
theorem C8_dateRange (parse : String → Option Int) (f t : String) (tf tt : Int)
    (db : List Animal) (hf : f ≠ "") (ht : t ≠ "")
    (hpf : parse f = some tf) (hpt : parse t = some tt) :
    list_animals parse none (some f) (some t) db
      = .ok (db.filter (fun a => decide (tf ≤ a.created_at ∧ a.created_at ≤ tt))) ∧
    list_animals parse none (some f) none db
      = .ok (db.filter (fun a => decide (tf ≤ a.created_at))) ∧
    list_animals parse none none (some t) db
      = .ok (db.filter (fun a => decide (a.created_at ≤ tt))) ∧
    list_animals parse none none none db = .ok db := by
  refine ⟨?_, ?_, ?_, rfl⟩
  · unfold list_animals dateFilter
    rw [applyFrom_some db hf hpf]
    dsimp only
    rw [applyTo_some _ ht hpt]
    dsimp only
    refine congrArg Except.ok ?_
    rw [List.filter_filter]
    refine List.filter_congr ?_
    intro x hx
    rw [Bool.decide_and]
    exact (Bool.and_comm _ _).symm
  · unfold list_animals dateFilter
    rw [applyFrom_some db hf hpf]
    dsimp only [applyToFilter]
  · unfold list_animals dateFilter
    dsimp only [applyFromFilter]
    rw [applyTo_some db ht hpt]

/-- Concrete instance of `C8_dateRange`. -/
theorem C8_dateRange_witness :
    list_animals (fun s => if s = "f" then some 2 else some 5) none (some "f") (some "t")
        [(⟨1, "a", 1⟩ : Animal), ⟨2, "b", 3⟩, ⟨3, "c", 9⟩]
      = .ok ([(⟨1, "a", 1⟩ : Animal), ⟨2, "b", 3⟩, ⟨3, "c", 9⟩].filter
          (fun a => decide ((2 : Int) ≤ a.created_at ∧ a.created_at ≤ 5))) :=
  (C8_dateRange (fun s => if s = "f" then some 2 else some 5) "f" "t" 2 5
    [⟨1, "a", 1⟩, ⟨2, "b", 3⟩, ⟨3, "c", 9⟩]
    (by decide) (by decide) (by decide) (by decide)).1

theorem normParam_applyFrom (parse : String → Option Int) (f : Option String)
    (db : List Animal) :
    applyFromFilter parse (normParam f) db = applyFromFilter parse f db := by
  cases f with
  | none => rfl
  | some s =>
    simp only [normParam]
    by_cases hs : s = ""
    · subst hs
      simp [applyFromFilter]
    · rw [if_neg hs]

theorem normParam_applyTo (parse : String → Option Int) (t : Option String)
    (db : List Animal) :
    applyToFilter parse (normParam t) db = applyToFilter parse t db := by
  cases t with
  | none => rfl
  | some s =>
    simp only [normParam]
    by_cases hs : s = ""
    · subst hs
      simp [applyToFilter]
    · rw [if_neg hs]

/-- C10: an empty string supplied for the sort, from-date or to-date query
parameter behaves exactly as an absent parameter (Python truthiness): no
`InvalidSortParameter`, no date parsing, no filtering; with all three empty
the full store is returned. -/
theorem C10_emptyParams (parse : String → Option Int) (s f t : Option String)
    (db : List Animal) :
    list_animals parse (normParam s) (normParam f) (normParam t) db
      = list_animals parse s f t db ∧
    list_animals parse (some "") (some "") (some "") db = .ok db := by
  constructor
  · unfold list_animals dateFilter
    rw [normParam_applyFrom]
    cases applyFromFilter parse f db with
    | error e => rfl
    | ok q =>
      dsimp only
      rw [normParam_applyTo]
      cases applyToFilter parse t q with
      | error e => rfl
      | ok q2 =>
        dsimp only
        cases s with
        | none => rfl
        | some sv =>
          simp only [normParam]
          by_cases hs : sv = ""
          · subst hs
            simp
          · rw [if_neg hs]
  · rfl

/-! ### C7: sort parameter of the listing -/

theorem strLeB_total (x y : List Char) : strLeB x y = true ∨ strLeB y x = true := by
  induction x generalizing y with
  | nil => exact Or.inl rfl
  | cons a as ih =>
    cases y with
    | nil => exact Or.inr rfl
    | cons b bs =>
      unfold strLeB
      rcases lt_trichotomy a b with h | h | h
      · left
        rw [if_pos h]
      · subst h
        rcases ih bs with h2 | h2
        · left
          rw [if_neg (lt_irrefl a), if_neg (lt_irrefl a)]
          exact h2
        · right
          rw [if_neg (lt_irrefl a), if_neg (lt_irrefl a)]
          exact h2
      · right
        rw [if_pos h]

theorem strLeB_trans : ∀ x y z : List Char,
    strLeB x y = true → strLeB y z = true → strLeB x z = true
  | [], _, _, _, _ => rfl
  | _ :: _, [], _, h1, _ => absurd h1 (by simp [strLeB])
  | _ :: _, _ :: _, [], _, h2 => absurd h2 (by simp [strLeB])
  | a :: as, b :: bs, c :: cs, h1, h2 => by
    unfold strLeB at h1 h2 ⊢
    rcases lt_trichotomy a b with hab | hab | hab
    · rcases lt_trichotomy b c with hbc | hbc | hbc
      · rw [if_pos (lt_trans hab hbc)]
      · subst hbc
        rw [if_pos hab]
      · rw [if_neg (lt_asymm hbc), if_pos hbc] at h2
        exact absurd h2 (by simp)
    · subst hab
      rw [if_neg (lt_irrefl a), if_neg (lt_irrefl a)] at h1
      rcases lt_trichotomy a c with hac | hac | hac
      · rw [if_pos hac]
      · subst hac
        rw [if_neg (lt_irrefl a), if_neg (lt_irrefl a)] at h2 ⊢
        exact strLeB_trans as bs cs h1 h2
      · rw [if_neg (lt_asymm hac), if_pos hac] at h2
        exact absurd h2 (by simp)
    · rw [if_neg (lt_asymm hab), if_pos hab] at h1
      exact absurd h1 (by simp)

theorem nameLe_mergeSort_sorted (q : List Animal) :
    (q.mergeSort nameLe).Pairwise (fun x y => nameLe x y = true) := by
  refine List.sorted_mergeSort ?_ ?_ q
  · intro a b c h1 h2
    exact strLeB_trans _ _ _ h1 h2
  · intro a b
    rcases strLeB_total a.name.data b.name.data with h | h <;> simp [nameLe, h]

theorem nameGe_mergeSort_sorted (q : List Animal) :
    (q.mergeSort nameGe).Pairwise (fun x y => nameGe x y = true) := by
  refine List.sorted_mergeSort ?_ ?_ q
  · intro a b c h1 h2
    exact strLeB_trans _ _ _ h2 h1
  · intro a b
    rcases strLeB_total b.name.data a.name.data with h | h <;> simp [nameGe, h]

/-- C7 counterexample: the empty string is a supplied sort value other than
`name` and `-name`, yet the listing succeeds instead of failing with
`InvalidSortParameter` (Python truthiness skips the sort block). -/
theorem C7_counterexample :
    list_animals (fun _ => none) (some "") none none lionDb = .ok lionDb ∧
    ("" : String) ≠ "name" ∧ ("" : String) ≠ "-name" :=
  ⟨rfl, by decide, by decide⟩

/-- C7 (amended): with sort `name` the listing returns the date-filtered rows
in ascending lexicographic name order (a permutation of them, pairwise
ordered); with `-name` in descending order; any other non-empty sort value
never returns rows, and fails with `InvalidSortParameter` whenever the date
filters did not already fail. -/
theorem C7_sorting (parse : String → Option Int) (fd td : Option String)
    (db : List Animal) :
    (∀ l, list_animals parse (some "name") fd td db = .ok l →
        l.Pairwise (fun x y => nameLe x y = true) ∧
        ∀ q, dateFilter parse fd td db = .ok q → l.Perm q) ∧
    (∀ l, list_animals parse (some "-name") fd td db = .ok l →
        l.Pairwise (fun x y => nameGe x y = true) ∧
        ∀ q, dateFilter parse fd td db = .ok q → l.Perm q) ∧
    (∀ s, s ≠ "" → s ≠ "name" → s ≠ "-name" →
        (∀ l, list_animals parse (some s) fd td db ≠ .ok l) ∧
        (∀ q, dateFilter parse fd td db = .ok q →
          list_animals parse (some s) fd td db = .error .invalidSortParameter)) := by
  refine ⟨?_, ?_, ?_⟩
  · intro l
    unfold list_animals
    cases dateFilter parse fd td db with
    | error e =>
      intro hl
      exact absurd hl (by simp)
    | ok q =>
      dsimp only
      rw [if_neg (by decide), if_pos rfl]
      intro hl
      injection hl with hl
      subst hl
      refine ⟨nameLe_mergeSort_sorted q, ?_⟩
      intro q2 hq2
      injection hq2 with hq2
      subst hq2
      exact List.mergeSort_perm q nameLe
  · intro l
    unfold list_animals
    cases dateFilter parse fd td db with
    | error e =>
      intro hl
      exact absurd hl (by simp)
    | ok q =>
      dsimp only
      rw [if_neg (by decide), if_neg (by decide), if_pos rfl]
      intro hl
      injection hl with hl
      subst hl
      refine ⟨nameGe_mergeSort_sorted q, ?_⟩
      intro q2 hq2
      injection hq2 with hq2
      subst hq2
      exact List.mergeSort_perm q nameGe
  · intro s hs1 hs2 hs3
    unfold list_animals
    cases dateFilter parse fd td db with
    | error e =>
      exact ⟨fun l => by simp, fun q hq => by simp at hq⟩
    | ok q =>
      dsimp only
      rw [if_neg hs1, if_neg hs2, if_neg hs3]
      exact ⟨fun l => by simp, fun q2 hq2 => rfl⟩

/-- Concrete instance of `C7_sorting`: the empty store is returned sorted, and
a junk sort value on the one-row store fails with `InvalidSortParameter`. -/
theorem C7_sorting_witness :
    (([] : List Animal).Pairwise (fun x y => nameLe x y = true) ∧
      ([] : List Animal).Perm []) ∧
    list_animals (fun _ => none) (some "created") none none lionDb
      = .error .invalidSortParameter := by
  constructor
  · have h := (C7_sorting (fun _ => none) none none []).1 [] (by
      simp only [list_animals, dateFilter, applyFromFilter, applyToFilter]
      simp [List.mergeSort_nil])
    exact ⟨h.1, h.2 [] rfl⟩
  · exact ((C7_sorting (fun _ => none) none none lionDb).2.2 "created"
      (by decide) (by decide) (by decide)).2 lionDb rfl

/-! ### C2: first search stage, LIKE vs substring -/

theorem charOfNat_toNat {n : Nat} (h1 : 97 ≤ n) (h2 : n ≤ 122) :
    (Char.ofNat n).toNat = n := by
  interval_cases n <;> decide

theorem lowerChar_ne {c d : Char} (hd : d.toNat < 97 ∨ 122 < d.toNat)
    (h : ¬c = d) : ¬lowerChar c = d := by
  unfold lowerChar
  split
  · rename_i hc
    intro he
    have h2 := congrArg Char.toNat he
    rw [charOfNat_toNat (by omega) (by omega)] at h2
    omega
  · exact h

theorem lowerL_wildcardFree {p : List Char}
    (hq : ∀ c ∈ p, ¬c = '%' ∧ ¬c = '_') :
    ∀ c ∈ lowerL p, ¬c = '%' ∧ ¬c = '_' := by
  intro c hc
  obtain ⟨c0, hc0, rfl⟩ := List.mem_map.1 hc
  exact ⟨lowerChar_ne (Or.inl (by decide)) (hq c0 hc0).1,
    lowerChar_ne (Or.inl (by decide)) (hq c0 hc0).2⟩

theorem likeMatch_lit : ∀ (p : List Char), (∀ c ∈ p, ¬c = '%' ∧ ¬c = '_') →
    ∀ t, likeMatch (p ++ ['%']) t = isPrefixL p t
  | [], _, t => by
    have hm : likeMatch ([] ++ ['%']) t = true := by
      simp only [List.nil_append, likeMatch, if_pos rfl]
      refine List.any_eq_true.2 ⟨t.length, List.mem_range.2 (Nat.lt_succ_self _), ?_⟩
      simp [likeMatch]
    rw [hm]
    rfl
  | c :: p2, hp, t => by
    obtain ⟨hc1, hc2⟩ := hp c (List.mem_cons_self _ _)
    cases t with
    | nil =>
      simp only [List.cons_append, likeMatch, if_neg hc1, if_neg hc2, isPrefixL]
    | cons d t2 =>
      simp only [List.cons_append, likeMatch, if_neg hc1, if_neg hc2, isPrefixL,
        List.append_eq]
      rw [likeMatch_lit p2 (fun x hx => hp x (List.mem_cons_of_mem _ hx)) t2]

theorem searchStage1_substr (q : String) (db : List Animal)
    (hq : ∀ c ∈ q.data, ¬c = '%' ∧ ¬c = '_') :
    searchStage1 q db = db.filter (fun a => isSubstrCI q a.name) := by
  refine List.filter_congr ?_
  intro a ha
  show likeMatch (likePat q) (lowerL a.name.data) = isSubstrCI q a.name
  unfold likePat isSubstrCI
  simp only [likeMatch, if_pos rfl]
  exact congrArg _ (funext fun n =>
    likeMatch_lit (lowerL q.data) (lowerL_wildcardFree hq) _)

/-- C2 counterexample: for the query `"_"` there is no record whose name
contains it as a substring, yet the first stage — an unescaped SQL `LIKE`
where `_` is a one-character wildcard — matches the record `"Lion"`, and the
search returns it. -/
theorem C2_counterexample :
    searchStage1 "_" lionDb = lionDb ∧
    lionDb.filter (fun a => isSubstrCI "_" a.name) = [] ∧
    search_animals "_" lionDb = .ok lionDb :=
  ⟨rfl, rfl, rfl⟩

/-- C2 (amended): for a query containing no SQL LIKE wildcard (`%` or `_`),
the first stage returns exactly the records whose name contains the query as
a case-insensitive substring, and whenever that set is non-empty the search
returns exactly it (the fallback is not consulted). -/
theorem C2_substringSearch (q : String) (db : List Animal)
    (hq : ∀ c ∈ q.data, ¬c = '%' ∧ ¬c = '_') :
    searchStage1 q db = db.filter (fun a => isSubstrCI q a.name) ∧
    (db.filter (fun a => isSubstrCI q a.name) ≠ [] →
      search_animals q db = .ok (db.filter (fun a => isSubstrCI q a.name))) := by
  have h1 := searchStage1_substr q db hq
  refine ⟨h1, ?_⟩
  intro hne
  have hF : (db.filter (fun a => isSubstrCI q a.name)).isEmpty = false := by
    rw [Bool.eq_false_iff]
    intro hcon
    exact hne (List.isEmpty_iff.1 hcon)
  simp only [search_animals]
  rw [h1]
  simp [hF]

/-- Concrete instance of `C2_substringSearch`: the query `"lion"` finds the
record `"Lion"` case-insensitively. -/
theorem C2_substringSearch_witness :
    search_animals "lion" lionDb
      = .ok (lionDb.filter (fun a => isSubstrCI "lion" a.name)) :=
  (C2_substringSearch "lion" lionDb (by decide)).2 (by decide)

/-! ### C3: similarity fallback of the search -/

set_option maxRecDepth 4000 in
/-- C3 counterexample: for the query `"_"` there is no substring match and no
record within 0.6 similarity, so the claim requires `SearchNotFound`; but the
first (`LIKE`) stage treats `_` as a wildcard, matches `"Lion"`, and the
search succeeds without consulting the fallback. -/
theorem C3_counterexample :
    lionDb.filter (fun a => isSubstrCI "_" a.name) = [] ∧
    lionDb.filter (fun a => smRatioGE06 (lowerL "_".data) (lowerL a.name.data)) = [] ∧
    search_animals "_" lionDb = .ok lionDb := by
  refine ⟨rfl, ?_, rfl⟩
  decide

/-- C3 (amended): for a query containing no SQL LIKE wildcard (`%` or `_`)
with zero case-insensitive substring matches, the search returns exactly the
records whose similarity ratio against the query (2·M/T on the lower-cased
strings) is at least 0.6, and fails with `SearchNotFound` when no record
reaches that threshold. -/
theorem C3_fallbackSearch (q : String) (db : List Animal)
    (hq : ∀ c ∈ q.data, ¬c = '%' ∧ ¬c = '_')
    (h0 : db.filter (fun a => isSubstrCI q a.name) = []) :
    (db.filter (fun a => smRatioGE06 (lowerL q.data) (lowerL a.name.data)) ≠ [] →
      search_animals q db
        = .ok (db.filter (fun a => smRatioGE06 (lowerL q.data) (lowerL a.name.data)))) ∧
    (db.filter (fun a => smRatioGE06 (lowerL q.data) (lowerL a.name.data)) = [] →
      search_animals q db = .error .searchNotFound) := by
  have hS : searchStage1 q db = [] := (searchStage1_substr q db hq).trans h0
  constructor
  · intro hne
    have hF : (db.filter
        (fun a => smRatioGE06 (lowerL q.data) (lowerL a.name.data))).isEmpty = false := by
      rw [Bool.eq_false_iff]
      intro hcon
      exact hne (List.isEmpty_iff.1 hcon)
    simp only [search_animals, searchFallback]
    rw [hS]
    simp [hF]
  · intro heq
    simp only [search_animals, searchFallback]
    rw [hS, heq]
    simp

set_option maxRecDepth 8000 in
/-- Concrete instance of `C3_fallbackSearch`: `"lioness"` has no substring
match in the one-row store, but `"lion"` scores 8/11 ≥ 0.6, so the fallback
returns it. -/
theorem C3_fallbackSearch_witness :
    search_animals "lioness" lionDb
      = .ok (lionDb.filter
          (fun a => smRatioGE06 (lowerL "lioness".data) (lowerL a.name.data))) :=
  (C3_fallbackSearch "lioness" lionDb (by decide) (by decide)).1 (by decide)

/-! ### Fuel adequacy of the matching-block recursion -/

theorem csl_le_left (a b : List Char) (alo blo : Nat) :
    ∀ i j, csl a b alo blo i j ≤ i + 1 - alo := by
  intro i
  induction i with
  | zero =>
    intro j
    unfold csl
    split
    · rename_i h
      obtain ⟨h1, -, -, -⟩ := h
      omega
    · omega
  | succ i ih =>
    intro j
    cases j with
    | zero =>
      unfold csl
      split
      · rename_i h
        obtain ⟨h1, -, -, -⟩ := h
        omega
      · omega
    | succ j =>
      unfold csl
      split
      · rename_i h
        obtain ⟨h1, -, -, -⟩ := h
        have := ih j
        omega
      · omega

theorem csl_le_right (a b : List Char) (alo blo : Nat) :
    ∀ i j, csl a b alo blo i j ≤ j + 1 - blo := by
  intro i
  induction i with
  | zero =>
    intro j
    unfold csl
    split
    · rename_i h
      obtain ⟨-, h2, -, -⟩ := h
      omega
    · omega
  | succ i ih =>
    intro j
    cases j with
    | zero =>
      unfold csl
      split
      · rename_i h
        obtain ⟨-, h2, -, -⟩ := h
        omega
      · omega
    | succ j =>
      unfold csl
      split
      · rename_i h
        obtain ⟨-, h2, -, -⟩ := h
        have := ih j
        omega
      · omega

theorem findLongestMatch_bounds (a b : List Char) (alo ahi blo bhi : Nat) :
    (findLongestMatch a b alo ahi blo bhi).2.2 ≠ 0 →
      alo ≤ (findLongestMatch a b alo ahi blo bhi).1 ∧
      (findLongestMatch a b alo ahi blo bhi).1
        + (findLongestMatch a b alo ahi blo bhi).2.2 ≤ ahi ∧
      blo ≤ (findLongestMatch a b alo ahi blo bhi).2.1 ∧
      (findLongestMatch a b alo ahi blo bhi).2.1
        + (findLongestMatch a b alo ahi blo bhi).2.2 ≤ bhi := by
  unfold findLongestMatch
  refine List.foldlRecOn (motive := fun r : Nat × Nat × Nat => r.2.2 ≠ 0 →
      alo ≤ r.1 ∧ r.1 + r.2.2 ≤ ahi ∧ blo ≤ r.2.1 ∧ r.2.1 + r.2.2 ≤ bhi)
    _ _ _ (fun h => absurd rfl h) ?_
  intro acc hacc i hi
  refine List.foldlRecOn (motive := fun r : Nat × Nat × Nat => r.2.2 ≠ 0 →
      alo ≤ r.1 ∧ r.1 + r.2.2 ≤ ahi ∧ blo ≤ r.2.1 ∧ r.2.1 + r.2.2 ≤ bhi)
    _ _ _ hacc ?_
  intro acc2 hacc2 j hj
  dsimp only
  split
  · rename_i hlt
    intro _
    dsimp only
    obtain ⟨i0, hi0, rfl⟩ := List.mem_range'.1 hi
    obtain ⟨j0, hj0, rfl⟩ := List.mem_range'.1 hj
    have hkl := csl_le_left a b alo blo (alo + 1 * i0) (blo + 1 * j0)
    have hkr := csl_le_right a b alo blo (alo + 1 * i0) (blo + 1 * j0)
    refine ⟨by omega, by omega, by omega, by omega⟩
  · exact hacc2

theorem matchSumF_fuel_congr (a b : List Char) :
    ∀ fuel1 fuel2 alo ahi blo bhi, ahi - alo ≤ fuel1 → ahi - alo ≤ fuel2 →
      matchSumF a b fuel1 alo ahi blo bhi = matchSumF a b fuel2 alo ahi blo bhi := by
  intro fuel1
  induction fuel1 with
  | zero =>
    intro fuel2 alo ahi blo bhi h1 h2
    have hk : (findLongestMatch a b alo ahi blo bhi).2.2 = 0 := by
      by_contra hk
      have := findLongestMatch_bounds a b alo ahi blo bhi hk
      omega
    cases fuel2 with
    | zero => rfl
    | succ f2 =>
      show (0 : Nat) = matchSumF a b (f2 + 1) alo ahi blo bhi
      unfold matchSumF
      simp [hk]
  | succ f1 ih =>
    intro fuel2 alo ahi blo bhi h1 h2
    cases fuel2 with
    | zero =>
      have hk : (findLongestMatch a b alo ahi blo bhi).2.2 = 0 := by
        by_contra hk
        have := findLongestMatch_bounds a b alo ahi blo bhi hk
        omega
      show matchSumF a b (f1 + 1) alo ahi blo bhi = (0 : Nat)
      unfold matchSumF
      simp [hk]
    | succ f2 =>
      unfold matchSumF
      dsimp only
      by_cases hk : (findLongestMatch a b alo ahi blo bhi).2.2 = 0
      · rw [if_pos hk, if_pos hk]
      · rw [if_neg hk, if_neg hk]
        obtain ⟨hb1, hb2, hb3, hb4⟩ := findLongestMatch_bounds a b alo ahi blo bhi hk
        rw [ih f2 _ _ _ _ (by omega) (by omega), ih f2 _ _ _ _ (by omega) (by omega)]

/-- The fuel `a.length` used by `matchTotal` is adequate: any larger fuel
computes the same total. -/
theorem matchTotal_fuel (a b : List Char) (fuel : Nat) (h : a.length ≤ fuel) :
    matchSumF a b fuel 0 a.length 0 b.length = matchTotal a b :=
  matchSumF_fuel_congr a b fuel a.length 0 a.length 0 b.length (by omega) (by omega)
